import Mathlib

/-!
Shallow embedding of `src/functions/cost_tracking_util.py` (open-webui
cost-tracking manifolds): model-pricing resolution (`ModelCostManager`),
decimal cost calculation (`CostCalculationManager`), usage-summary
aggregation (`UsagePersistenceManager.get_usage_stats`) and status-message
emission (`CostTrackingManager.update_status_message`), together with
theorems settling the specification claims.

Python strings are modelled as Lean `String`; Python `Decimal` values as
`ℚ` (exact arithmetic, as `Decimal` is exact on the values involved);
Python `datetime` as a six-field record compared lexicographically.
-/

set_option maxHeartbeats 1000000

/-! ### Python string primitives used by the source -/

/-- The ASCII whitespace characters removed by Python `str.strip()`. -/
def isPySpace (c : Char) : Bool :=
  c = ' ' || c = '\t' || c = '\n' || c = '\r' || c = '\x0b' || c = '\x0c'

/-- Python `str.lower()` (the source only ever lowercases ASCII names). -/
def pyLower (s : String) : String := ⟨s.data.map Char.toLower⟩

/-- Python `str.strip()`: drop leading and trailing whitespace. -/
def pyStrip (s : String) : String :=
  ⟨((s.data.dropWhile isPySpace).reverse.dropWhile isPySpace).reverse⟩

/-- Boolean prefix test on character lists (first argument is the pattern). -/
def isPre : List Char → List Char → Bool
  | [], _ => true
  | _ :: _, [] => false
  | a :: as, b :: bs => a = b && isPre as bs

/-- Python `s.startswith(pat)`. -/
def pyStartsWith (s pat : String) : Bool := isPre pat.data s.data

/-- Characters after the first `'.'`, i.e. Python `s.split(".", 1)[1]`
(meaningful when the list contains a dot). -/
def afterDot : List Char → List Char
  | [] => []
  | c :: rest => if c = '.' then rest else afterDot rest

/-! ### Pricing data (`ModelCostManager.pricing_data`) -/

/-- One value of the `pricing_data` dictionary in `cost_tracking_util.py`. -/
structure PricingRecord where
  input_cost_per_token : ℚ
  output_cost_per_token : ℚ
  cost_currency : String
deriving DecidableEq, Repr

/-- The `ModelCostManager.pricing_data` dictionary, in source (insertion)
order.  Python dicts iterate in insertion order, which matters for the
first-encountered-wins tie-break of `_find_best_match`. -/
def pricing_data : List (String × PricingRecord) :=
  [ ("openai.o1-preview", ⟨15/1000, 60/1000, "USD"⟩),
    ("openai.o1-mini", ⟨3/1000, 12/1000, "USD"⟩),
    ("chatgpt-4o-latest", ⟨5/1000, 15/1000, "USD"⟩),
    ("openai.gpt-4o", ⟨25/10000, 100/10000, "USD"⟩),
    ("openai.gpt-4o-2024-05-13", ⟨50/10000, 150/10000, "USD"⟩),
    ("openai.gpt-4o-mini", ⟨15/100000, 60/100000, "USD"⟩),
    ("openai.gpt-4-turbo", ⟨1/100, 3/100, "USD"⟩),
    ("openai.gpt-4", ⟨3/100, 6/100, "USD"⟩),
    ("anthropic.claude-3-opus", ⟨15/1000, 75/1000, "USD"⟩),
    ("anthropic.claude-3-sonnet", ⟨3/1000, 15/1000, "USD"⟩),
    ("anthropic.claude-3-5-sonnet", ⟨3/1000, 15/1000, "USD"⟩),
    ("anthropic.claude-3-haiku", ⟨25/100000, 125/100000, "USD"⟩),
    ("anthropic.claude-3-5-haiku", ⟨25/100000, 125/100000, "USD"⟩),
    ("yandexgpt.yandexgpt", ⟨120/100000, 120/100000, "RUB"⟩),
    ("yandexgpt.yandexgpt-lite", ⟨20/100000, 20/100000, "RUB"⟩) ]

/-- Iteration order of `pricing_data.keys()`. -/
def pricingKeys : List String := pricing_data.map Prod.fst

/-- Python dict lookup `d[k]` / `k in d` on an association list with
distinct keys. -/
def dictLookup (k : String) : List (String × PricingRecord) → Option PricingRecord
  | [] => none
  | (k', v) :: rest => if k = k' then some v else dictLookup k rest

/-! ### `ModelCostManager` -/

/-- `ModelCostManager._normalize_model_name`: lowercase, and when
`sp` ("strip_prefix" in the source) is set and the name contains a dot,
drop everything up to and including the first dot. -/
def normalize_model_name (name : String) (sp : Bool) : String :=
  let low := pyLower name
  if sp && low.data.contains '.' then ⟨afterDot low.data⟩ else low

/-- Loop body of `_find_best_match`: the accumulator carries
`(best_match, longest_match_length)`; a key replaces the best match
exactly when the normalized query starts with the normalized key and the
normalized key is strictly longer than the best so far. -/
def fbmStep (nq : String) (sp : Bool) (acc : Option String × ℕ) (key : String) :
    Option String × ℕ :=
  let nk := normalize_model_name key sp
  if pyStartsWith nq nk && decide (acc.2 < nk.length) then (some key, nk.length) else acc

/-- `ModelCostManager._find_best_match`. -/
def find_best_match (query : String) (sp : Bool) : Option String :=
  (pricingKeys.foldl (fbmStep (normalize_model_name query sp) sp) (none, 0)).1

/-- The normalization `model.lower().strip()` applied by `get_model_data`
before any lookup. -/
def canonQuery (model : String) : String := pyStrip (pyLower model)

/-- `ModelCostManager.get_model_data`: exact lookup, then full-name
longest-prefix search, then prefix-stripped longest-prefix search, then
the `("unknown", {})` sentinel.  An absent record (`{}` in Python) is
modelled as `none`. -/
def get_model_data (model : String) : String × Option PricingRecord :=
  let m := canonQuery model
  match dictLookup m pricing_data with
  | some rec => (m, some rec)
  | none =>
    match find_best_match m false with
    | some bm => (bm, dictLookup bm pricing_data)
    | none =>
      match find_best_match m true with
      | some bm => (bm, dictLookup bm pricing_data)
      | none => ("unknown", none)

/-! ### Cost calculation (`CostCalculationManager.calculate_costs`) -/

/-- Python `Decimal.quantize(Decimal("0.00000001"), rounding=ROUND_HALF_UP)`
applied to `x`: round to the nearest integer multiple of `10⁻⁸`, ties away
from zero. -/
def round_half_up_int (x : ℚ) : ℤ :=
  if 0 ≤ x then ⌊x + 1/2⌋ else -⌊-x + 1/2⌋

/-- Quantization of a `Decimal` to 8 fractional digits, `ROUND_HALF_UP`. -/
def quantize8 (x : ℚ) : ℚ := (round_half_up_int (x * 10 ^ 8) : ℚ) / 10 ^ 8

/-- `CostCalculationManager.calculate_costs`, with the instance state
(`self.model_pricing_data`, `self.model_used_by_cost_calculation`) passed
explicitly.  `.get(key, 0)` on the empty record gives rate `0`; the
`if input_tokens` / `if output_tokens` truthiness tests of the source are
kept as-is. -/
def calculate_costs (model_pricing_data : Option PricingRecord)
    (model_used_by_cost_calculation : String)
    (input_tokens output_tokens : ℕ) : ℚ × String × String :=
  let compensation : ℚ := 1
  let input_cost_per_token : ℚ :=
    (model_pricing_data.map (·.input_cost_per_token)).getD 0
  let output_cost_per_token : ℚ :=
    (model_pricing_data.map (·.output_cost_per_token)).getD 0
  let input_cost : ℚ :=
    if input_tokens ≠ 0 then (input_tokens : ℚ) * input_cost_per_token else 0
  let output_cost : ℚ :=
    if output_tokens ≠ 0 then (output_tokens : ℚ) * output_cost_per_token else 0
  let total_cost := compensation * (input_cost + output_cost)
  (quantize8 total_cost,
   (model_pricing_data.map (·.cost_currency)).getD "",
   model_used_by_cost_calculation)

/-- `CostCalculationManager.__init__` followed by `calculate_costs`:
resolve the pricing data for `model` once, then compute costs. -/
def calculate_costs_for (model : String) (input_tokens output_tokens : ℕ) :
    ℚ × String × String :=
  let r := get_model_data model
  calculate_costs r.2 r.1 input_tokens output_tokens

/-! ### Encoder selection (`CostCalculationManager.get_encoding`) -/

/-- An abstract tokenizer encoding (tiktoken is external to the repo). -/
structure Encoding' where
  ename : String
deriving DecidableEq, Repr

/-- The provider strip performed by `get_encoding` before the tiktoken
lookup: `model.split(".", 1)[1]` when the name contains a dot. -/
def strip_provider (model : String) : String :=
  if model.data.contains '.' then ⟨afterDot model.data⟩ else model

/-- `CostCalculationManager.get_encoding`: the external
`tiktoken.encoding_for_model` is a parameter returning `none` where the
library would raise `KeyError`; `cl100k` stands for
`tiktoken.get_encoding("cl100k_base")`.  The function is total: a lookup
miss falls back to the default encoding instead of propagating an error. -/
def get_encoding (encoding_for_model : String → Option Encoding')
    (cl100k : Encoding') (model : String) : Encoding' :=
  match encoding_for_model (strip_provider model) with
  | some enc => enc
  | none => cl100k

/-! ### Characterization of the `_find_best_match` loop -/

/-- Invariant of the `_find_best_match` loop, proved for an arbitrary key
list and accumulator: either no key beats the accumulator (all candidates
have normalized length at most the accumulated length), or the result is
the first key attaining the maximal candidate length that strictly beats
the initial accumulator. -/
theorem fbm_foldl_char (nq : String) (sp : Bool) :
    ∀ (l : List String) (b : Option String) (n : ℕ),
      (l.foldl (fbmStep nq sp) (b, n) = (b, n) ∧
        ∀ k ∈ l, pyStartsWith nq (normalize_model_name k sp) = true →
          (normalize_model_name k sp).length ≤ n) ∨
      (∃ pre k post,
        l = pre ++ k :: post ∧
        l.foldl (fbmStep nq sp) (b, n) =
          (some k, (normalize_model_name k sp).length) ∧
        pyStartsWith nq (normalize_model_name k sp) = true ∧
        n < (normalize_model_name k sp).length ∧
        (∀ k' ∈ pre, pyStartsWith nq (normalize_model_name k' sp) = true →
          (normalize_model_name k' sp).length < (normalize_model_name k sp).length) ∧
        (∀ k' ∈ post, pyStartsWith nq (normalize_model_name k' sp) = true →
          (normalize_model_name k' sp).length ≤ (normalize_model_name k sp).length)) := by
  intro l
  induction l with
  | nil => intro b n; left; exact ⟨rfl, by simp⟩
  | cons key rest ih =>
    intro b n
    rw [List.foldl_cons]
    by_cases hst : pyStartsWith nq (normalize_model_name key sp) = true
    · by_cases hlen : n < (normalize_model_name key sp).length
      · have hstep : fbmStep nq sp (b, n) key =
            (some key, (normalize_model_name key sp).length) := by
          simp [fbmStep, hst, hlen]
        rw [hstep]
        rcases ih (some key) ((normalize_model_name key sp).length) with
          ⟨h1, h2⟩ | ⟨pre', k', post', hsplit, hres, hcand, hlt, hpre, hpost⟩
        · right
          exact ⟨[], key, rest, by simp, by rw [h1], hst, hlen, by simp, h2⟩
        · right
          refine ⟨key :: pre', k', post', by simp [hsplit], hres, hcand,
            lt_trans hlen hlt, ?_, hpost⟩
          intro k'' hk'' hcand''
          rcases List.mem_cons.mp hk'' with rfl | hmem
          · exact hlt
          · exact hpre k'' hmem hcand''
      · have hstep : fbmStep nq sp (b, n) key = (b, n) := by
          simp [fbmStep, hlen]
        rw [hstep]
        rcases ih b n with
          ⟨h1, h2⟩ | ⟨pre', k', post', hsplit, hres, hcand, hlt, hpre, hpost⟩
        · left
          refine ⟨h1, ?_⟩
          intro k'' hk'' hcand''
          rcases List.mem_cons.mp hk'' with rfl | hmem
          · omega
          · exact h2 k'' hmem hcand''
        · right
          refine ⟨key :: pre', k', post', by simp [hsplit], hres, hcand, hlt, ?_, hpost⟩
          intro k'' hk'' hcand''
          rcases List.mem_cons.mp hk'' with rfl | hmem
          · omega
          · exact hpre k'' hmem hcand''
    · have hstep : fbmStep nq sp (b, n) key = (b, n) := by
        simp [fbmStep, hst]
      rw [hstep]
      rcases ih b n with
        ⟨h1, h2⟩ | ⟨pre', k', post', hsplit, hres, hcand, hlt, hpre, hpost⟩
      · left
        refine ⟨h1, ?_⟩
        intro k'' hk'' hcand''
        rcases List.mem_cons.mp hk'' with rfl | hmem
        · exact absurd hcand'' hst
        · exact h2 k'' hmem hcand''
      · right
        refine ⟨key :: pre', k', post', by simp [hsplit], hres, hcand, hlt, ?_, hpost⟩
        intro k'' hk'' hcand''
        rcases List.mem_cons.mp hk'' with rfl | hmem
        · exact absurd hcand'' hst
        · exact hpre k'' hmem hcand''

/-- A successful `_find_best_match` result is one of the table keys. -/
theorem find_best_match_mem {q : String} {sp : Bool} {k : String}
    (h : find_best_match q sp = some k) : k ∈ pricingKeys := by
  unfold find_best_match at h
  rcases fbm_foldl_char (normalize_model_name q sp) sp pricingKeys none 0 with
    ⟨h1, _⟩ | ⟨pre, k', post, hsplit, hres, _, _, _, _⟩
  · rw [h1] at h; exact absurd h (by simp)
  · rw [hres] at h
    simp only [Option.some.injEq] at h
    subst h
    rw [hsplit]
    exact List.mem_append.mpr (Or.inr (List.mem_cons_self _ _))

/-- A key found by `dictLookup` is one of the table keys. -/
theorem dictLookup_mem {k : String} {v : PricingRecord} :
    ∀ {l : List (String × PricingRecord)},
      dictLookup k l = some v → k ∈ l.map Prod.fst := by
  intro l
  induction l with
  | nil => intro h; exact absurd h (by simp [dictLookup])
  | cons p rest ih =>
    intro h
    by_cases he : k = p.1
    · simp [he]
    · rw [show p = (p.1, p.2) from rfl] at h
      simp only [dictLookup, if_neg he] at h
      simp [ih h]

/-! ### Claim theorems: pricing resolution -/

/-- Every normalized pricing-table key is nonempty (needed to show the
loop cannot come back empty when a candidate exists, since a key only
beats the initial accumulator when its length exceeds zero). -/
theorem pricingKeys_norm_pos :
    ∀ k ∈ pricingKeys, 0 < (normalize_model_name k false).length := by decide

/-- C1: for a raw model name that is not an exact key of the pricing
table, resolution performs longest-prefix matching over the normalized
table keys: any returned key is a candidate (its normalized form is a
prefix of the normalized query) of maximal normalized length, every
candidate occurring earlier in table iteration order is strictly shorter
(first encountered wins at equal length), a candidate existing guarantees
a match is returned, and resolving
"openai.gpt-4o-2024-05-13-extra" yields "openai.gpt-4o-2024-05-13". -/
theorem c1_longest_prefix_matching :
    (∀ model : String,
      dictLookup (canonQuery model) pricing_data = none →
      (∀ k, find_best_match (canonQuery model) false = some k →
        get_model_data model = (k, dictLookup k pricing_data) ∧
        ∃ pre post,
          pricingKeys = pre ++ k :: post ∧
          pyStartsWith (normalize_model_name (canonQuery model) false)
            (normalize_model_name k false) = true ∧
          (∀ k' ∈ pricingKeys,
            pyStartsWith (normalize_model_name (canonQuery model) false)
              (normalize_model_name k' false) = true →
            (normalize_model_name k' false).length ≤ (normalize_model_name k false).length) ∧
          (∀ k' ∈ pre,
            pyStartsWith (normalize_model_name (canonQuery model) false)
              (normalize_model_name k' false) = true →
            (normalize_model_name k' false).length < (normalize_model_name k false).length)) ∧
      ((∃ k₀ ∈ pricingKeys,
          pyStartsWith (normalize_model_name (canonQuery model) false)
            (normalize_model_name k₀ false) = true) →
        ∃ k, find_best_match (canonQuery model) false = some k)) ∧
    get_model_data "openai.gpt-4o-2024-05-13-extra" =
      ("openai.gpt-4o-2024-05-13", some ⟨50/10000, 150/10000, "USD"⟩) := by
  constructor
  · intro model hlookup
    constructor
    · intro k hfbm
      have hchar := fbm_foldl_char (normalize_model_name (canonQuery model) false)
        false pricingKeys none 0
      unfold find_best_match at hfbm
      rcases hchar with ⟨h1, _⟩ | ⟨pre, k', post, hsplit, hres, hcand, _, hpre, hpost⟩
      · rw [h1] at hfbm; exact absurd hfbm (by simp)
      · rw [hres] at hfbm
        simp only [Option.some.injEq] at hfbm
        constructor
        · have hfbm' : find_best_match (canonQuery model) false = some k := by
            unfold find_best_match; rw [hres, hfbm]
          simp [get_model_data, hlookup, hfbm']
        · rw [← hfbm]
          refine ⟨pre, post, hsplit, hcand, ?_, hpre⟩
          intro k'' hk'' hcand''
          rw [hsplit] at hk''
          rcases List.mem_append.mp hk'' with hmem | hmem
          · exact le_of_lt (hpre k'' hmem hcand'')
          · rcases List.mem_cons.mp hmem with rfl | hmem'
            · exact le_refl _
            · exact hpost k'' hmem' hcand''
    · intro ⟨k₀, hk₀mem, hk₀cand⟩
      have hchar := fbm_foldl_char (normalize_model_name (canonQuery model) false)
        false pricingKeys none 0
      rcases hchar with ⟨_, h2⟩ | ⟨pre, k', post, _, hres, _, _, _, _⟩
      · have hpos : 0 < (normalize_model_name k₀ false).length :=
          pricingKeys_norm_pos k₀ hk₀mem
        have := h2 k₀ hk₀mem hk₀cand
        omega
      · exact ⟨k', by unfold find_best_match; rw [hres]⟩
  · rfl

/-- C1 witness: the hypotheses of the general statement hold at the
spec's example input, and the theorem then pins the resolved key. -/
theorem c1_witness :
    dictLookup (canonQuery "openai.gpt-4o-2024-05-13-extra") pricing_data = none ∧
    find_best_match (canonQuery "openai.gpt-4o-2024-05-13-extra") false =
      some "openai.gpt-4o-2024-05-13" ∧
    get_model_data "openai.gpt-4o-2024-05-13-extra" =
      ("openai.gpt-4o-2024-05-13", dictLookup "openai.gpt-4o-2024-05-13" pricing_data) :=
  ⟨rfl, rfl,
    ((c1_longest_prefix_matching.1 "openai.gpt-4o-2024-05-13-extra" rfl).1 _ rfl).1⟩

/-- C5: a model name that after lowercasing and trimming is exactly a
pricing-table key resolves immediately to that key with its record
unchanged, bypassing the prefix search. -/
theorem c5_exact_match (model : String) (rec : PricingRecord)
    (h : dictLookup (canonQuery model) pricing_data = some rec) :
    get_model_data model = (canonQuery model, some rec) := by
  simp [get_model_data, h]

/-- C5 witness: the spec's example "openai.gpt-4" is an exact key. -/
theorem c5_witness :
    dictLookup (canonQuery "openai.gpt-4") pricing_data = some ⟨3/100, 6/100, "USD"⟩ ∧
    get_model_data "openai.gpt-4" = (canonQuery "openai.gpt-4", some ⟨3/100, 6/100, "USD"⟩) :=
  ⟨rfl, c5_exact_match "openai.gpt-4" ⟨3/100, 6/100, "USD"⟩ rfl⟩

/-- C3: when the exact lookup and the full-name longest-prefix search
both fail, resolution retries the longest-prefix search with the provider
prefix stripped, and a hit there is returned with its table record. -/
theorem c3_stripped_fallback (model k : String)
    (h0 : dictLookup (canonQuery model) pricing_data = none)
    (h1 : find_best_match (canonQuery model) false = none)
    (h2 : find_best_match (canonQuery model) true = some k) :
    get_model_data model = (k, dictLookup k pricing_data) := by
  simp [get_model_data, h0, h1, h2]

/-- C3 witness: "customprovider.claude-3-opus" misses the exact lookup
and the full-name search, and the stripped search resolves it to
"anthropic.claude-3-opus" with that entry's pricing. -/
theorem c3_witness :
    dictLookup (canonQuery "customprovider.claude-3-opus") pricing_data = none ∧
    find_best_match (canonQuery "customprovider.claude-3-opus") false = none ∧
    find_best_match (canonQuery "customprovider.claude-3-opus") true =
      some "anthropic.claude-3-opus" ∧
    get_model_data "customprovider.claude-3-opus" =
      ("anthropic.claude-3-opus", some ⟨15/1000, 75/1000, "USD"⟩) := by
  refine ⟨rfl, rfl, rfl, ?_⟩
  rw [c3_stripped_fallback "customprovider.claude-3-opus" "anthropic.claude-3-opus" rfl rfl rfl]
  rfl

/-- The quantized cost of zero is zero. -/
theorem quantize8_zero : quantize8 0 = 0 := by
  have h : ((0 : ℚ) * 10 ^ 8) = 0 := by ring
  rw [quantize8, h, round_half_up_int]
  norm_num

/-- C4: a model name matched by neither the exact lookup nor either
prefix search resolves to the sentinel `("unknown", {})`, cost
calculation on that result yields cost 0 with empty currency, and in
general the resolved key is either "unknown" or a pricing-table key. -/
theorem c4_unknown_sentinel :
    (∀ model : String,
      dictLookup (canonQuery model) pricing_data = none →
      find_best_match (canonQuery model) false = none →
      find_best_match (canonQuery model) true = none →
      get_model_data model = ("unknown", none) ∧
      ∀ it ot : ℕ, calculate_costs_for model it ot = (0, "", "unknown")) ∧
    (∀ model : String,
      (get_model_data model).1 = "unknown" ∨ (get_model_data model).1 ∈ pricingKeys) := by
  constructor
  · intro model h0 h1 h2
    have hres : get_model_data model = ("unknown", none) := by
      simp [get_model_data, h0, h1, h2]
    refine ⟨hres, ?_⟩
    intro it ot
    rw [calculate_costs_for, hres]
    show calculate_costs none "unknown" it ot = (0, "", "unknown")
    rw [calculate_costs]
    simp only [Option.map_none', Option.getD_none, mul_zero, ite_self, add_zero, one_mul]
    rw [quantize8_zero]
  · intro model
    rcases hd : dictLookup (canonQuery model) pricing_data with _ | rec
    · rcases hf : find_best_match (canonQuery model) false with _ | k
      · rcases hg : find_best_match (canonQuery model) true with _ | k'
        · left; simp [get_model_data, hd, hf, hg]
        · right
          have : (get_model_data model).1 = k' := by simp [get_model_data, hd, hf, hg]
          rw [this]
          exact find_best_match_mem hg
      · right
        have : (get_model_data model).1 = k := by simp [get_model_data, hd, hf]
        rw [this]
        exact find_best_match_mem hf
    · right
      have : (get_model_data model).1 = canonQuery model := by simp [get_model_data, hd]
      rw [this]
      exact dictLookup_mem hd

/-- C4 witness: "totally-unknown-model" hits the sentinel and zero cost. -/
theorem c4_witness :
    dictLookup (canonQuery "totally-unknown-model") pricing_data = none ∧
    find_best_match (canonQuery "totally-unknown-model") false = none ∧
    find_best_match (canonQuery "totally-unknown-model") true = none ∧
    get_model_data "totally-unknown-model" = ("unknown", none) ∧
    calculate_costs_for "totally-unknown-model" 5 7 = (0, "", "unknown") :=
  ⟨rfl, rfl, rfl,
    (c4_unknown_sentinel.1 "totally-unknown-model" rfl rfl rfl).1,
    (c4_unknown_sentinel.1 "totally-unknown-model" rfl rfl rfl).2 5 7⟩

/-! ### Claim theorems: cost computation and encoder selection -/

/-- The quantized value is always an integer number of `10⁻⁸` units,
i.e. a decimal with exactly 8 fractional digits. -/
theorem quantize8_eq_int_div (x : ℚ) : ∃ n : ℤ, quantize8 x = (n : ℚ) / 10 ^ 8 :=
  ⟨round_half_up_int (x * 10 ^ 8), rfl⟩

/-- C2: for a resolved pricing record the computed cost is exactly
round-half-up(inputTokens·inputRate + outputTokens·outputRate) at 8
decimal fractional digits, in exact arithmetic; the result is always an
integer multiple of 10⁻⁸; and the spec's example (rates 0.003/0.015,
1000/500 tokens) comes out as 1050000000·10⁻⁸ = 10.50000000. -/
theorem c2_cost_rounding :
    (∀ (rec : PricingRecord) (used : String) (it ot : ℕ),
      calculate_costs (some rec) used it ot =
        (quantize8 ((it : ℚ) * rec.input_cost_per_token +
            (ot : ℚ) * rec.output_cost_per_token),
          rec.cost_currency, used) ∧
      ∃ n : ℤ, (calculate_costs (some rec) used it ot).1 = (n : ℚ) / 10 ^ 8) ∧
    calculate_costs (some ⟨3/1000, 15/1000, "USD"⟩) "example-model" 1000 500 =
      ((1050000000 : ℚ) / 10 ^ 8, "USD", "example-model") ∧
    ((1050000000 : ℚ) / 10 ^ 8) = 21/2 := by
  refine ⟨?_, ?_, by norm_num⟩
  · intro rec used it ot
    refine ⟨?_, quantize8_eq_int_div _⟩
    have harg : (1 : ℚ) *
        ((if it ≠ 0 then (it : ℚ) * rec.input_cost_per_token else 0) +
          (if ot ≠ 0 then (ot : ℚ) * rec.output_cost_per_token else 0)) =
        (it : ℚ) * rec.input_cost_per_token + (ot : ℚ) * rec.output_cost_per_token := by
      by_cases hit : it = 0 <;> by_cases hot : ot = 0 <;> simp [hit, hot]
    simp only [calculate_costs, Option.map_some', Option.getD_some]
    rw [harg]
  · have h1000 : (1000 : ℕ) ≠ 0 := by norm_num
    have h500 : (500 : ℕ) ≠ 0 := by norm_num
    simp only [calculate_costs, Option.map_some', Option.getD_some, if_pos h1000, if_pos h500]
    have harg : (1 : ℚ) * (((1000 : ℕ) : ℚ) * (3/1000) + ((500 : ℕ) : ℚ) * (15/1000)) =
        21/2 := by push_cast; ring
    rw [harg]
    have : quantize8 (21/2) = (1050000000 : ℚ) / 10 ^ 8 := by
      rw [quantize8, round_half_up_int]
      norm_num
    rw [this]

/-- C9: encoder selection is a total function; if the external registry
has no entry for the model name (with provider prefix stripped before the
lookup) it returns the default `cl100k_base` encoder, and otherwise it
returns the registered encoder — no error is ever surfaced. -/
theorem c9_encoder_fallback :
    ∀ (encoding_for_model : String → Option Encoding') (cl100k : Encoding')
      (model : String),
      (∀ e, encoding_for_model (strip_provider model) = some e →
        get_encoding encoding_for_model cl100k model = e) ∧
      (encoding_for_model (strip_provider model) = none →
        get_encoding encoding_for_model cl100k model = cl100k) := by
  intro efm cl model
  constructor
  · intro e he; simp [get_encoding, he]
  · intro he; simp [get_encoding, he]

/-- C9 witness: a one-entry registry serves the registered model after
prefix stripping and falls back to the default for any other model. -/
theorem c9_witness :
    ((fun s => if s = "gpt-4o" then some (⟨"o200k_base"⟩ : Encoding') else none)
        (strip_provider "openai.gpt-4o") = some ⟨"o200k_base"⟩) ∧
    get_encoding (fun s => if s = "gpt-4o" then some ⟨"o200k_base"⟩ else none)
      ⟨"cl100k_base"⟩ "openai.gpt-4o" = ⟨"o200k_base"⟩ ∧
    ((fun s => if s = "gpt-4o" then some (⟨"o200k_base"⟩ : Encoding') else none)
        (strip_provider "anthropic.claude-3-opus") = none) ∧
    get_encoding (fun s => if s = "gpt-4o" then some ⟨"o200k_base"⟩ else none)
      ⟨"cl100k_base"⟩ "anthropic.claude-3-opus" = ⟨"cl100k_base"⟩ :=
  ⟨rfl,
    (c9_encoder_fallback (fun s => if s = "gpt-4o" then some ⟨"o200k_base"⟩ else none)
      ⟨"cl100k_base"⟩ "openai.gpt-4o").1 ⟨"o200k_base"⟩ rfl,
    rfl,
    (c9_encoder_fallback (fun s => if s = "gpt-4o" then some ⟨"o200k_base"⟩ else none)
      ⟨"cl100k_base"⟩ "anthropic.claude-3-opus").2 rfl⟩

/-! ### Status message formatting (`CostTrackingManager.update_status_message`) -/

/-- Substring occurrence on character lists (pattern first). -/
def hasSubL (pat : List Char) : List Char → Bool
  | [] => isPre pat []
  | c :: rest => isPre pat (c :: rest) || hasSubL pat rest

/-- Python `pat in s` on strings. -/
def has_substr (s pat : String) : Bool := hasSubL pat.data s.data

/-- Python `format` rounding of a `Decimal` to a fixed number of digits:
round to nearest, ties to the even integer (the default decimal context
used by `f"{x:,.2f}"`). -/
def round_half_even (x : ℚ) : ℤ :=
  if x - (⌊x⌋ : ℚ) < 1/2 then ⌊x⌋
  else if (1 : ℚ)/2 < x - (⌊x⌋ : ℚ) then ⌊x⌋ + 1
  else if ⌊x⌋ % 2 = 0 then ⌊x⌋ else ⌊x⌋ + 1

/-- Decimal digits of a natural number, least significant first, with
explicit fuel (`fuel ≥ 1 + number of digits` suffices). -/
def natDigitsRev : ℕ → ℕ → List Char
  | 0, _ => []
  | fuel + 1, n =>
    if n < 10 then [Nat.digitChar n]
    else Nat.digitChar (n % 10) :: natDigitsRev fuel (n / 10)

/-- Decimal digit characters of a natural number, most significant first
(Python `str(n)` for a non-negative int). -/
def natDigits (n : ℕ) : List Char := (natDigitsRev (n + 1) n).reverse

/-- Insert a thousands separator after every third character, the input
being least-significant-first digits. -/
def group3Aux : List Char → List Char
  | a :: b :: c :: d :: rest => a :: b :: c :: ',' :: group3Aux (d :: rest)
  | l => l

/-- Comma-grouped decimal digits, most significant first (the integer
part of Python `f"{x:,.2f}"`). -/
def group3 (ds : List Char) : List Char := (group3Aux ds.reverse).reverse

/-- Exactly two decimal digit characters for `n < 100`. -/
def pad2chars (n : ℕ) : List Char := [Nat.digitChar (n / 10), Nat.digitChar (n % 10)]

/-- Python `f"{x:,.2f}"`: sign, comma-grouped integer part, and exactly
two fractional digits of the half-even-rounded value. -/
def format_comma_2f (x : ℚ) : String :=
  let cents := round_half_even (x * 100)
  let a := cents.natAbs
  (if x < 0 then "-" else "") ++ ⟨group3 (natDigits (a / 100))⟩ ++ "." ++ ⟨pad2chars (a % 100)⟩

/-- Python `f"{x:.2f}"`: like `format_comma_2f` but without grouping
(used for the elapsed-seconds segment). -/
def format_2f (x : ℚ) : String :=
  let cents := round_half_even (x * 100)
  let a := cents.natAbs
  (if x < 0 then "-" else "") ++ ⟨natDigits (a / 100)⟩ ++ "." ++ ⟨pad2chars (a % 100)⟩

/-- The `cost_str` computation of `update_status_message`: a ruble suffix
exactly for currency "RUB", otherwise a dollar prefix; empty when either
the cost or the currency is `None`. -/
def cost_string (current_cost : Option ℚ) (cost_currency : Option String) : String :=
  match current_cost, cost_currency with
  | some c, some cur =>
    if cur = "RUB" then format_comma_2f c ++ "₽" else "$" ++ format_comma_2f c
  | _, _ => ""

/-- The `done` flag: `True if status in ("Completed", "Stopped", "") else False`. -/
def status_done (status : String) : Bool :=
  if status = "Completed" ∨ status = "Stopped" ∨ status = "" then true else false

/-- The `status_parts` list of `update_status_message`, before the
empty-segment filter.  `none` token counts model Python `None`;
`has_start_time` models the truthiness test on `start_time`. -/
def status_parts (has_start_time : Bool) (processing_time : ℚ)
    (input_tokens generated_tokens : Option ℕ) (reasoning_tokens : ℕ)
    (cost_str : String) (status : String) : List String :=
  [ if has_start_time then format_2f processing_time ++ "s" else "",
    match input_tokens with
    | some n => toString n ++ " Input Tokens"
    | none => "",
    match generated_tokens with
    | some n => toString n ++ " Generated Tokens"
    | none => "",
    if reasoning_tokens ≠ 0 then
      "including " ++ toString reasoning_tokens ++ " Reasoning Tokens"
    else "",
    if cost_str ≠ "" && !(has_substr status "Requested") then "Cost " ++ cost_str else "",
    if status ≠ "" then status else "" ]

/-- The event emitted to `__event_emitter__`. -/
structure StatusEvent where
  etype : String
  description : String
  done : Bool
deriving DecidableEq, Repr

/-- `CostTrackingManager.update_status_message`: returns `none` when the
event emitter is absent (the early return), otherwise the emitted status
event, whose description joins the nonempty parts with " | " and whose
`done` flag is `status_done status`. -/
def update_status_message (emitter_present : Bool)
    (input_tokens generated_tokens : Option ℕ) (reasoning_tokens : ℕ)
    (has_start_time : Bool) (processing_time : ℚ)
    (current_cost : Option ℚ) (cost_currency : Option String)
    (status : String) : Option StatusEvent :=
  if emitter_present = false then none
  else
    let cost_str := cost_string current_cost cost_currency
    let parts := status_parts has_start_time processing_time input_tokens
      generated_tokens reasoning_tokens cost_str status
    some { etype := "status",
           description := String.intercalate " | " (parts.filter (fun p => p ≠ "")),
           done := status_done status }

/-! ### Claim theorems: status-message emission -/

/-- C8: the emitted event's `done` flag is true exactly when the status
label is "Completed", "Stopped", or empty, and false for any other
label. -/
theorem c8_done_flag :
    ∀ (emitter_present : Bool) (input_tokens generated_tokens : Option ℕ)
      (reasoning_tokens : ℕ) (has_start_time : Bool) (processing_time : ℚ)
      (current_cost : Option ℚ) (cost_currency : Option String)
      (status : String) (ev : StatusEvent),
      update_status_message emitter_present input_tokens generated_tokens
        reasoning_tokens has_start_time processing_time current_cost
        cost_currency status = some ev →
      (ev.done = true ↔ (status = "Completed" ∨ status = "Stopped" ∨ status = "")) := by
  intro ep it gt rt hst pt cc cur status ev h
  by_cases hep : ep = false
  · rw [update_status_message, if_pos hep] at h
    exact absurd h (by simp)
  · rw [update_status_message, if_neg hep] at h
    simp only [Option.some.injEq] at h
    subst h
    show status_done status = true ↔ _
    rw [status_done]
    by_cases hs : status = "Completed" ∨ status = "Stopped" ∨ status = ""
    · simp [hs]
    · simp [hs]

/-- C8 witness: a non-final status label yields an emitted event with
`done = false`, and the theorem's equivalence holds there. -/
theorem c8_witness :
    update_status_message true none none 0 false 0 none none "Streaming" =
      some ⟨"status", "Streaming", false⟩ ∧
    (false = true ↔
      ("Streaming" = "Completed" ∨ "Streaming" = "Stopped" ∨ "Streaming" = "")) :=
  ⟨rfl, c8_done_flag true none none 0 false 0 none none "Streaming"
    ⟨"status", "Streaming", false⟩ rfl⟩

/-- Characters that can occur in a formatted amount: digits, the
thousands separator, the decimal point, and a minus sign. -/
def isFmtChar (c : Char) : Bool := c.isDigit || c = ',' || c = '.' || c = '-'

/-- Digit characters are digits. -/
theorem digitChar_digit {m : ℕ} (h : m < 10) : (Nat.digitChar m).isDigit = true := by
  interval_cases m <;> decide

/-- All characters produced by `natDigitsRev` are digits. -/
theorem natDigitsRev_chars :
    ∀ (fuel n : ℕ), ∀ c ∈ natDigitsRev fuel n, c.isDigit = true := by
  intro fuel
  induction fuel with
  | zero => intro n c hc; simp [natDigitsRev] at hc
  | succ fuel ih =>
    intro n c hc
    rw [natDigitsRev] at hc
    by_cases hn : n < 10
    · rw [if_pos hn] at hc
      simp only [List.mem_singleton] at hc
      subst hc
      exact digitChar_digit hn
    · rw [if_neg hn] at hc
      rcases List.mem_cons.mp hc with rfl | hmem
      · exact digitChar_digit (Nat.mod_lt _ (by norm_num))
      · exact ih _ _ hmem

/-- Characters produced by the grouping pass are digits or commas. -/
theorem group3Aux_chars :
    ∀ l : List Char, (∀ x ∈ l, x.isDigit = true) →
      ∀ c ∈ group3Aux l, c.isDigit = true ∨ c = ',' := by
  intro l
  induction l using group3Aux.induct with
  | case1 a b c d rest ih =>
    intro hl x hx
    rw [group3Aux] at hx
    rcases List.mem_cons.mp hx with rfl | hx
    · exact Or.inl (hl _ (by simp))
    rcases List.mem_cons.mp hx with rfl | hx
    · exact Or.inl (hl _ (by simp))
    rcases List.mem_cons.mp hx with rfl | hx
    · exact Or.inl (hl _ (by simp))
    rcases List.mem_cons.mp hx with rfl | hx
    · exact Or.inr rfl
    · exact ih (fun y hy => hl y (by simp only [List.mem_cons] at hy ⊢; tauto)) x hx
  | case2 l h2 =>
    intro hl x hx
    have hsmall : group3Aux l = l := by
      rcases l with _ | ⟨a, _ | ⟨b, _ | ⟨c, _ | ⟨d, rest⟩⟩⟩⟩
      · rfl
      · rfl
      · rfl
      · rfl
      · exact absurd rfl (h2 a b c d rest)
    rw [hsmall] at hx
    exact Or.inl (hl x hx)

/-- The data of a formatted amount, written as an explicit list
concatenation. -/
theorem format_comma_2f_data (x : ℚ) :
    (format_comma_2f x).data =
      ((if x < 0 then "-" else "") : String).data ++
        (group3 (natDigits ((round_half_even (x * 100)).natAbs / 100)) ++
          ('.' :: pad2chars ((round_half_even (x * 100)).natAbs % 100))) := by
  rw [format_comma_2f]
  simp [String.data_append]

/-- Every character of a formatted amount is a digit, comma, point, or
minus sign; in particular it is neither a dollar sign nor a ruble sign. -/
theorem format_comma_2f_chars (x : ℚ) :
    ∀ c ∈ (format_comma_2f x).data, isFmtChar c = true := by
  intro c hc
  rw [format_comma_2f_data] at hc
  rcases List.mem_append.mp hc with hc | hc
  · by_cases hx : x < 0
    · rw [if_pos hx] at hc
      simp only [show ("-" : String).data = ['-'] from rfl, List.mem_singleton] at hc
      subst hc; decide
    · rw [if_neg hx] at hc
      simp only [show ("" : String).data = [] from rfl] at hc
      exact absurd hc (List.not_mem_nil c)
  · rcases List.mem_append.mp hc with hc | hc
    · have hds : ∀ y ∈ (natDigits ((round_half_even (x * 100)).natAbs / 100)).reverse,
          y.isDigit = true := by
        intro y hy
        rw [List.mem_reverse] at hy
        rw [natDigits, List.mem_reverse] at hy
        exact natDigitsRev_chars _ _ y hy
      rw [group3, List.mem_reverse] at hc
      rcases group3Aux_chars _ hds c hc with hd | hcomma
      · simp [isFmtChar, hd]
      · simp [isFmtChar, hcomma]
    · rcases List.mem_cons.mp hc with rfl | hc
      · decide
      · rw [pad2chars] at hc
        rcases List.mem_cons.mp hc with rfl | hc
        · have : (round_half_even (x * 100)).natAbs % 100 / 10 < 10 := by omega
          simp [isFmtChar, digitChar_digit this]
        · rcases List.mem_cons.mp hc with rfl | hc
          · have : (round_half_even (x * 100)).natAbs % 100 % 10 < 10 := by omega
            simp [isFmtChar, digitChar_digit this]
          · exact absurd hc (List.not_mem_nil c)

/-- A formatted amount ends with a digit (its second fractional digit). -/
theorem format_comma_2f_getLast (x : ℚ) :
    ∃ d, (format_comma_2f x).data.getLast? = some d ∧ d.isDigit = true := by
  refine ⟨Nat.digitChar ((round_half_even (x * 100)).natAbs % 100 % 10), ?_,
    digitChar_digit (by omega)⟩
  rw [format_comma_2f_data, pad2chars]
  have hsplit :
      ((if x < 0 then "-" else "") : String).data ++
        (group3 (natDigits ((round_half_even (x * 100)).natAbs / 100)) ++
          ('.' :: [Nat.digitChar ((round_half_even (x * 100)).natAbs % 100 / 10),
            Nat.digitChar ((round_half_even (x * 100)).natAbs % 100 % 10)])) =
      (((if x < 0 then "-" else "") : String).data ++
        (group3 (natDigits ((round_half_even (x * 100)).natAbs / 100)) ++
          ['.', Nat.digitChar ((round_half_even (x * 100)).natAbs % 100 / 10)])) ++
        [Nat.digitChar ((round_half_even (x * 100)).natAbs % 100 % 10)] := by
    simp
  rw [hsplit]
  exact List.getLast?_concat _

/-- A formatted amount is a nonempty string. -/
theorem format_comma_2f_ne_nil (x : ℚ) : (format_comma_2f x).data ≠ [] := by
  rw [format_comma_2f_data]
  simp [pad2chars]

/-- C10: whenever a cost and a currency are present, the rendered cost
segment carries a ruble suffix exactly when the currency is "RUB" and a
dollar prefix for every other currency; the empty-string currency of an
unresolved model renders its zero cost as "$0.00", and the segment
"Cost $0.00" then appears among the emitted status parts whenever the
status label does not mention "Requested". -/
theorem c10_currency_rendering :
    (∀ (c : ℚ) (cur : String),
      ((cost_string (some c) (some cur)).data.getLast? = some '₽' ↔ cur = "RUB") ∧
      ((cost_string (some c) (some cur)).data.head? = some '$' ↔ cur ≠ "RUB")) ∧
    cost_string (some 0) (some "") = "$0.00" ∧
    (∀ (input_tokens generated_tokens : Option ℕ) (reasoning_tokens : ℕ)
        (has_start_time : Bool) (processing_time : ℚ) (status : String),
      has_substr status "Requested" = false →
      "Cost $0.00" ∈ (status_parts has_start_time processing_time input_tokens
          generated_tokens reasoning_tokens (cost_string (some 0) (some "")) status).filter
        (fun p => p ≠ "")) := by
  have hmem_of_head : ∀ {l : List Char} {a : Char}, l.head? = some a → a ∈ l := by
    intro l a h; cases l <;> simp_all
  have hz : cost_string (some 0) (some "") = "$0.00" := by
    have hc : round_half_even ((0 : ℚ) * 100) = 0 := by
      rw [round_half_even]; norm_num
    have hc' : round_half_even (0 : ℚ) = 0 := by
      rw [round_half_even]; norm_num
    simp [cost_string, format_comma_2f, hc, hc']
    decide
  refine ⟨?_, hz, ?_⟩
  · intro c cur
    by_cases hcur : cur = "RUB"
    · subst hcur
      have hdata : (cost_string (some c) (some "RUB")).data
          = (format_comma_2f c).data ++ ['₽'] := by
        simp [cost_string, String.data_append]
      constructor
      · exact ⟨fun _ => rfl, fun _ => by rw [hdata]; exact List.getLast?_concat _⟩
      · constructor
        · intro h
          rw [hdata] at h
          have hm := hmem_of_head h
          rcases List.mem_append.mp hm with hm | hm
          · have := format_comma_2f_chars c _ hm
            exact absurd this (by decide)
          · simp at hm
        · intro h; exact absurd rfl h
    · have hdata : (cost_string (some c) (some cur)).data
          = '$' :: (format_comma_2f c).data := by
        simp [cost_string, hcur, String.data_append]
      constructor
      · constructor
        · intro h
          rw [hdata] at h
          obtain ⟨d, hd, hdig⟩ := format_comma_2f_getLast c
          have hlast : ('$' :: (format_comma_2f c).data).getLast? = some d := by
            cases hl : (format_comma_2f c).data with
            | nil => exact absurd hl (by rw [hl] at hd; simp at hd)
            | cons y ys =>
              rw [hl] at hd
              rw [List.getLast?_cons_cons]
              exact hd
          rw [hlast] at h
          have : d = '₽' := Option.some.inj h
          subst this
          exact absurd hdig (by decide)
        · intro h; exact absurd h hcur
      · exact ⟨fun _ => hcur, fun _ => by rw [hdata]; rfl⟩
  · intro it gt rt hst pt status hreq
    have happ : "Cost " ++ "$0.00" = "Cost $0.00" := rfl
    apply List.mem_filter.mpr
    constructor
    · simp only [status_parts, hz, hreq, Bool.not_false, Bool.and_true]
      simp only [List.mem_cons]
      right; right; right; right; left
      rw [if_pos (by decide)]
      exact happ.symm
    · decide

/-- C10 witness: with a zero cost, empty currency and the "Completed"
status label, the "Requested" guard is false and the theorem places
"Cost $0.00" among the emitted nonempty status segments. -/
theorem c10_witness :
    has_substr "Completed" "Requested" = false ∧
    "Cost $0.00" ∈ (status_parts false 0 none none 0
        (cost_string (some 0) (some "")) "Completed").filter (fun p => p ≠ "") :=
  ⟨rfl, c10_currency_rendering.2.2 none none 0 false 0 "Completed" rfl⟩

/-- A Python naive `datetime` (the granularity used by the source:
`datetime.now()` timestamps and day-resolution filter bounds). -/
structure PyDateTime where
  year : ℕ
  month : ℕ
  day : ℕ
  hour : ℕ
  minute : ℕ
  second : ℕ
deriving DecidableEq, Repr

/-- Comparison of timestamps (`timestamp < :end_date` in SQL, Python
`datetime` ordering): lexicographic on the six fields. -/
def dtLt (a b : PyDateTime) : Prop :=
  a.year < b.year ∨ (a.year = b.year ∧
    (a.month < b.month ∨ (a.month = b.month ∧
      (a.day < b.day ∨ (a.day = b.day ∧
        (a.hour < b.hour ∨ (a.hour = b.hour ∧
          (a.minute < b.minute ∨ (a.minute = b.minute ∧
            a.second < b.second)))))))))

instance dtLt.instDecidable (a b : PyDateTime) : Decidable (dtLt a b) := by
  unfold dtLt; infer_instance

/-- Gregorian leap-year rule (as used by Python `datetime`). -/
def isLeapYear (y : ℕ) : Bool := (y % 4 = 0 && y % 100 != 0) || y % 400 = 0

/-- Days in a Gregorian month. -/
def daysInMonth (y m : ℕ) : ℕ :=
  if m = 2 then (if isLeapYear y then 29 else 28)
  else if m = 4 ∨ m = 6 ∨ m = 9 ∨ m = 11 then 30
  else 31

/-- Python `end_date + timedelta(days=1)` on a valid datetime: the next
calendar day, keeping the time fields. -/
def addOneDay (d : PyDateTime) : PyDateTime :=
  if d.day < daysInMonth d.year d.month then
    { d with day := d.day + 1 }
  else if d.month < 12 then
    { d with month := d.month + 1, day := 1 }
  else
    { d with year := d.year + 1, month := 1, day := 1 }

/-- The invariant Python `datetime` maintains on its fields. -/
def ValidDT (d : PyDateTime) : Prop :=
  1 ≤ d.month ∧ d.month ≤ 12 ∧ 1 ≤ d.day ∧ d.day ≤ daysInMonth d.year d.month ∧
  d.hour ≤ 23 ∧ d.minute ≤ 59 ∧ d.second ≤ 59

instance ValidDT.instDecidable (d : PyDateTime) : Decidable (ValidDT d) := by
  unfold ValidDT; infer_instance

/-- Calendar-day comparison: `a`'s date is on or before `b`'s date. -/
def dateOnlyLe (a b : PyDateTime) : Prop :=
  a.year < b.year ∨ (a.year = b.year ∧
    (a.month < b.month ∨ (a.month = b.month ∧ a.day ≤ b.day)))

/-- Being strictly before `end_date + 1 day` (the filter the source
builds) is, for a midnight `end_date`, the same as falling on or before
`end_date`'s calendar day. -/
theorem dtLt_addOneDay_iff (ts ed : PyDateTime)
    (hts : ValidDT ts) (hed : ValidDT ed)
    (hh : ed.hour = 0) (hm : ed.minute = 0) (hs : ed.second = 0) :
    dtLt ts (addOneDay ed) ↔ dateOnlyLe ts ed := by
  obtain ⟨hm1, hm2, hd1, hd2, _, _, _⟩ := hts
  obtain ⟨em1, em2, ed1, ed2, _, _, _⟩ := hed
  rw [addOneDay]
  by_cases hb1 : ed.day < daysInMonth ed.year ed.month
  · rw [if_pos hb1]
    simp only [dtLt, dateOnlyLe]
    rw [hh, hm, hs]
    omega
  · rw [if_neg hb1]
    by_cases hb2 : ed.month < 12
    · rw [if_pos hb2]
      simp only [dtLt, dateOnlyLe]
      rw [hh, hm, hs]
      by_cases hy : ts.year = ed.year
      · by_cases hmo : ts.month = ed.month
        · rw [hy, hmo] at hd2
          omega
        · omega
      · omega
    · rw [if_neg hb2]
      simp only [dtLt, dateOnlyLe]
      rw [hh, hm, hs]
      have hm12 : ed.month = 12 := by omega
      have h31 : daysInMonth ed.year ed.month = 31 := by rw [hm12]; rfl
      by_cases hts12 : ts.month = 12
      · rw [hts12] at hd2
        have h31' : daysInMonth ts.year 12 = 31 := rfl
        rw [h31'] at hd2
        omega
      · omega

/-- One row of the `usage_costs` table. -/
structure UsageRow where
  user_email : String
  model : String
  task : String
  timestamp : PyDateTime
  input_tokens : ℕ
  output_tokens : ℕ
  total_cost : ℚ
  cost_currency : String
  model_used_by_cost_calculation : String
deriving DecidableEq, Repr

/-- The WHERE clause built by `get_usage_stats`: optional equality on
`user_email`, optional `timestamp >= :start_date`, and optional
`timestamp < :end_date` where the bound parameter is
`end_date + timedelta(days=1)`. -/
def row_passes (user_email : Option String) (start_date end_date : Option PyDateTime)
    (row : UsageRow) : Bool :=
  (match user_email with
   | some u => decide (row.user_email = u)
   | none => true) &&
  (match start_date with
   | some sd => decide (¬ dtLt row.timestamp sd)
   | none => true) &&
  (match end_date with
   | some ed => decide (dtLt row.timestamp (addOneDay ed))
   | none => true)

/-- C6: with an `endDate` given (at midnight of a valid calendar day),
the date filter admits a stored row exactly when its timestamp is
strictly before `endDate` plus one day, which for valid timestamps is
exactly when the timestamp falls on or before `endDate`'s calendar
day — so the whole end day is included. -/
theorem c6_end_date_inclusive :
    ∀ (row : UsageRow) (ed : PyDateTime),
      ValidDT row.timestamp → ValidDT ed →
      ed.hour = 0 → ed.minute = 0 → ed.second = 0 →
      (row_passes none none (some ed) row = true ↔
        dtLt row.timestamp (addOneDay ed)) ∧
      (row_passes none none (some ed) row = true ↔
        dateOnlyLe row.timestamp ed) := by
  intro row ed hvts hved hh hm hs
  have h1 : row_passes none none (some ed) row = true ↔
      dtLt row.timestamp (addOneDay ed) := by
    simp [row_passes]
  exact ⟨h1, h1.trans (dtLt_addOneDay_iff row.timestamp ed hvts hved hh hm hs)⟩

/-- C6 witness: a row timestamped 2024-01-05T23:59:00 is admitted when
`endDate` is 2024-01-05. -/
theorem c6_witness :
    ValidDT (⟨2024, 1, 5, 23, 59, 0⟩ : PyDateTime) ∧
    ValidDT (⟨2024, 1, 5, 0, 0, 0⟩ : PyDateTime) ∧
    (row_passes none none (some ⟨2024, 1, 5, 0, 0, 0⟩)
        ⟨"alice@example.com", "openai.gpt-4o", "chat",
          ⟨2024, 1, 5, 23, 59, 0⟩, 100, 200, 1, "USD", "openai.gpt-4o"⟩ = true ↔
      dateOnlyLe (⟨2024, 1, 5, 23, 59, 0⟩ : PyDateTime) ⟨2024, 1, 5, 0, 0, 0⟩) ∧
    row_passes none none (some ⟨2024, 1, 5, 0, 0, 0⟩)
        ⟨"alice@example.com", "openai.gpt-4o", "chat",
          ⟨2024, 1, 5, 23, 59, 0⟩, 100, 200, 1, "USD", "openai.gpt-4o"⟩ = true :=
  ⟨by decide, by decide,
    (c6_end_date_inclusive
      ⟨"alice@example.com", "openai.gpt-4o", "chat",
        ⟨2024, 1, 5, 23, 59, 0⟩, 100, 200, 1, "USD", "openai.gpt-4o"⟩
      ⟨2024, 1, 5, 0, 0, 0⟩ (by decide) (by decide) rfl rfl rfl).2,
    by decide⟩

/-! ### Usage summary aggregation (`UsagePersistenceManager.get_usage_stats`) -/

/-- Two-digit zero-padded decimal rendering (for months and days). -/
def pad2str (n : ℕ) : String := ⟨pad2chars n⟩

/-- Four-digit zero-padded decimal rendering (for years). -/
def pad4str (n : ℕ) : String :=
  ⟨[Nat.digitChar (n / 1000 % 10), Nat.digitChar (n / 100 % 10),
    Nat.digitChar (n / 10 % 10), Nat.digitChar (n % 10)]⟩

/-- The SQL date projection `strftime('%Y-%m-%d', timestamp)` /
`to_char(timestamp, 'YYYY-MM-DD')`. -/
def format_date (d : PyDateTime) : String :=
  pad4str d.year ++ "-" ++ pad2str d.month ++ "-" ++ pad2str d.day

/-- The grouping/ordering key of a row, in ORDER BY column order:
user email, formatted date, model, cost currency. -/
def summaryKey (r : UsageRow) : String × String × String × String :=
  (r.user_email, format_date r.timestamp, r.model, r.cost_currency)

/-- The ORDER BY comparison: lexicographic by user email, then date,
then model, then currency. -/
def keyLe (a b : String × String × String × String) : Prop :=
  a.1 < b.1 ∨ (a.1 = b.1 ∧
    (a.2.1 < b.2.1 ∨ (a.2.1 = b.2.1 ∧
      (a.2.2.1 < b.2.2.1 ∨ (a.2.2.1 = b.2.2.1 ∧ a.2.2.2 ≤ b.2.2.2)))))

instance keyLe.instDecidable : DecidableRel keyLe := fun a b => by
  unfold keyLe; infer_instance

/-- The same four components, as a nested lexicographic product. -/
def keyEmbed (a : String × String × String × String) :
    Lex (String × Lex (String × Lex (String × String))) :=
  toLex (a.1, toLex (a.2.1, toLex (a.2.2.1, a.2.2.2)))

/-- The ORDER BY comparison is the lexicographic order on the nested
product, hence total, transitive, and antisymmetric. -/
theorem keyLe_iff (a b : String × String × String × String) :
    keyLe a b ↔ keyEmbed a ≤ keyEmbed b := by
  rw [keyLe, keyEmbed, keyEmbed, Prod.Lex.le_iff, Prod.Lex.le_iff, Prod.Lex.le_iff]

instance keyLe.instIsTotal : IsTotal (String × String × String × String) keyLe :=
  ⟨fun a b => by
    rw [keyLe_iff, keyLe_iff]
    exact le_total _ _⟩

instance keyLe.instIsTrans : IsTrans (String × String × String × String) keyLe :=
  ⟨fun a b c hab hbc => by
    rw [keyLe_iff] at hab hbc ⊢
    exact le_trans hab hbc⟩

instance keyLe.instIsAntisymm : IsAntisymm (String × String × String × String) keyLe :=
  ⟨fun a b hab hba => by
    rw [keyLe_iff] at hab hba
    have h := le_antisymm hab hba
    rw [keyEmbed, keyEmbed] at h
    simp only [toLex_inj, Prod.mk.injEq] at h
    obtain ⟨e1, e2, e3, e4⟩ := h
    exact Prod.ext e1 (Prod.ext e2 (Prod.ext e3 e4))⟩

/-- One row of the aggregated usage summary. -/
structure SummaryRow where
  user_email : String
  model : String
  currency : String
  date : String
  total_cost : ℚ
  total_input_tokens : ℕ
  total_output_tokens : ℕ
deriving DecidableEq, Repr

/-- The aggregate of one GROUP BY group: sums of cost and token counts
over the rows sharing the key. -/
def mk_summary (rows : List UsageRow) (k : String × String × String × String) :
    SummaryRow :=
  let group := rows.filter (fun r => summaryKey r = k)
  { user_email := k.1, date := k.2.1, model := k.2.2.1, currency := k.2.2.2,
    total_cost := (group.map (fun r => r.total_cost)).sum,
    total_input_tokens := (group.map (fun r => r.input_tokens)).sum,
    total_output_tokens := (group.map (fun r => r.output_tokens)).sum }

/-- `UsagePersistenceManager.get_usage_stats` as the semantics of its
SQL query over a table state: filter by the optional WHERE conditions,
group by the distinct keys, aggregate, and order by user email, date,
model, currency. -/
def get_usage_stats (rows : List UsageRow) (user_email : Option String)
    (start_date end_date : Option PyDateTime) : List SummaryRow :=
  let fr := rows.filter (row_passes user_email start_date end_date)
  let ks := (fr.map summaryKey).dedup
  let sks := ks.insertionSort keyLe
  sks.map (mk_summary fr)

/-- The ordering key of an output summary row. -/
def summary_key_of (s : SummaryRow) : String × String × String × String :=
  (s.user_email, s.date, s.model, s.currency)

/-- C7: the usage-summary result is sorted by user email, then date,
then model, then currency, and is the same list for any two table states
that are permutations of each other — i.e. the output order does not
depend on insertion order. -/
theorem c7_summary_ordering :
    (∀ (rows : List UsageRow) (u : Option String) (sd ed : Option PyDateTime),
      List.Sorted keyLe ((get_usage_stats rows u sd ed).map summary_key_of)) ∧
    (∀ (rows₁ rows₂ : List UsageRow) (u : Option String) (sd ed : Option PyDateTime),
      rows₁.Perm rows₂ →
      get_usage_stats rows₁ u sd ed = get_usage_stats rows₂ u sd ed) := by
  constructor
  · intro rows u sd ed
    have hmap : (get_usage_stats rows u sd ed).map summary_key_of =
        (((rows.filter (row_passes u sd ed)).map summaryKey).dedup).insertionSort keyLe := by
      rw [get_usage_stats]
      rw [List.map_map]
      have : summary_key_of ∘
          mk_summary (rows.filter (row_passes u sd ed)) = id := by
        funext k
        rfl
      rw [this, List.map_id]
    rw [hmap]
    exact List.sorted_insertionSort keyLe _
  · intro r1 r2 u sd ed hperm
    rw [get_usage_stats, get_usage_stats]
    have hfr : (r1.filter (row_passes u sd ed)).Perm (r2.filter (row_passes u sd ed)) :=
      hperm.filter _
    have hkeys : (((r1.filter (row_passes u sd ed)).map summaryKey).dedup).Perm
        (((r2.filter (row_passes u sd ed)).map summaryKey).dedup) :=
      (hfr.map summaryKey).dedup
    have hsorted : ((((r1.filter (row_passes u sd ed)).map summaryKey).dedup).insertionSort keyLe) =
        ((((r2.filter (row_passes u sd ed)).map summaryKey).dedup).insertionSort keyLe) := by
      exact List.eq_of_perm_of_sorted
        (((List.perm_insertionSort keyLe _).trans hkeys).trans
          (List.perm_insertionSort keyLe _).symm)
        (List.sorted_insertionSort keyLe _)
        (List.sorted_insertionSort keyLe _)
    rw [hsorted]
    apply List.map_congr_left
    intro k _
    have hgroup : ((r1.filter (row_passes u sd ed)).filter
        (fun r => summaryKey r = k)).Perm
        ((r2.filter (row_passes u sd ed)).filter (fun r => summaryKey r = k)) :=
      hfr.filter _
    simp only [mk_summary, SummaryRow.mk.injEq]
    refine ⟨trivial, trivial, trivial, trivial, ?_, ?_, ?_⟩
    · exact (hgroup.map (fun r => r.total_cost)).sum_eq
    · exact (hgroup.map (fun r => r.input_tokens)).sum_eq
    · exact (hgroup.map (fun r => r.output_tokens)).sum_eq

/-- C7 witness: two rows for the same user on different dates produce
the same summary regardless of which was inserted first. -/
theorem c7_witness :
    get_usage_stats
        [⟨"bob@example.com", "openai.gpt-4o", "chat", ⟨2024, 1, 6, 10, 0, 0⟩,
            1, 2, 3, "USD", "openai.gpt-4o"⟩,
         ⟨"bob@example.com", "openai.gpt-4o", "chat", ⟨2024, 1, 5, 10, 0, 0⟩,
            4, 5, 6, "USD", "openai.gpt-4o"⟩] none none none =
      get_usage_stats
        [⟨"bob@example.com", "openai.gpt-4o", "chat", ⟨2024, 1, 5, 10, 0, 0⟩,
            4, 5, 6, "USD", "openai.gpt-4o"⟩,
         ⟨"bob@example.com", "openai.gpt-4o", "chat", ⟨2024, 1, 6, 10, 0, 0⟩,
            1, 2, 3, "USD", "openai.gpt-4o"⟩] none none none :=
  c7_summary_ordering.2 _ _ none none none
    (List.Perm.swap
      (⟨"bob@example.com", "openai.gpt-4o", "chat", ⟨2024, 1, 5, 10, 0, 0⟩,
          4, 5, 6, "USD", "openai.gpt-4o"⟩ : UsageRow)
      (⟨"bob@example.com", "openai.gpt-4o", "chat", ⟨2024, 1, 6, 10, 0, 0⟩,
          1, 2, 3, "USD", "openai.gpt-4o"⟩ : UsageRow)
      [])
